import Mathlib

/-! Shallow embedding of kmr_memory_simulation.py (gravitational-wave memory
strain from tidal disruption events near primordial black holes), over exact
real arithmetic.  Python floats are modelled as real numbers; `np.logspace`
and the per-grid-point evaluation are modelled as Lean lists.
-/

set_option maxRecDepth 8000

noncomputable section

namespace KMR

/-- Gravitational constant, CGS (source line 14). -/
def G : ℝ := 6.6743e-8

/-- Speed of light, CGS (source line 15). -/
def c : ℝ := 2.9979e10

/-- Solar mass in grams (source line 16). -/
def Msun : ℝ := 2.0e33

/-- Solar radius in centimetres (source line 17). -/
def Rsun : ℝ := 7.0e10

/-- Stellar mass of the disrupted star (source line 22). -/
def M_star : ℝ := Msun

/-- Stellar radius of the disrupted star (source line 23). -/
def R_star : ℝ := Rsun

/-- Ejection anisotropy factor (source line 24). -/
def epsilon : ℝ := 0.02

/-- Total mass ejected in the TDE (source line 25). -/
def deltaM : ℝ := 0.001 * Msun

/-- Distance to the observer (source line 26). -/
def D : ℝ := 3.1e26

/-- Characteristic ejecta velocity (source line 27). -/
def v_ej : ℝ := 0.1 * c

/-- Model of numpy logspace: n base-10 logarithmically spaced points whose
exponents run linearly from lo to hi inclusive. -/
def logspace (lo hi : ℝ) (n : ℕ) : List ℝ :=
  (List.range n).map fun k : ℕ => (10 : ℝ) ^ (lo + (hi - lo) * (k : ℝ) / ((n : ℝ) - 1))

/-- The PBH mass grid, 10^20 to 10^25 g in 200 points (source line 32). -/
def M_pbh : List ℝ := logspace 20 25 200

/-- Tidal radius (source line 54). -/
def Rt (M_pbh M_star R_star : ℝ) : ℝ := R_star * (M_pbh / M_star) ^ ((1 : ℝ) / 3)

/-- Gravitational radius (source line 55). -/
def Rg (M_pbh : ℝ) : ℝ := 2 * G * M_pbh / c ^ 2

/-- The Kathpalia Memory Relation strain (source lines 59-61). -/
def KMR_strain (M_pbh M_star R_star deltaM epsilon D v_ej : ℝ) : ℝ :=
  1e40 * (8 * epsilon / (3 * Real.pi)) * (deltaM / M_pbh) *
    (Rt M_pbh M_star R_star / Rg M_pbh)⁻¹ * (v_ej / c) ^ 2 * (G / c ^ 4) * (M_pbh / D)

/-- The strain sequence over the mass grid (source line 66). -/
def strains : List ℝ :=
  M_pbh.map fun m => KMR_strain m M_star R_star deltaM epsilon D v_ej

/-- The strain is strictly positive on the positive parameter domain. -/
theorem KMR_strain_pos {M Ms Rs dM e Dv v : ℝ}
    (hM : 0 < M) (hMs : 0 < Ms) (hRs : 0 < Rs) (hdM : 0 < dM) (he : 0 < e)
    (hD : 0 < Dv) (hv : 0 < v) : 0 < KMR_strain M Ms Rs dM e Dv v := by
  have hMdiv : (0 : ℝ) < M / Ms := div_pos hM hMs
  simp only [KMR_strain, Rt, Rg, G, c]
  positivity

/-- Doubling the observer distance halves the strain, so the ratio of the
strain at distance Dv to the strain at distance 2 Dv is exactly 2. -/
theorem KMR_strain_distance_halving {M Ms Rs dM e Dv v : ℝ}
    (hM : 0 < M) (hMs : 0 < Ms) (hRs : 0 < Rs) (hdM : 0 < dM) (he : 0 < e)
    (hD : 0 < Dv) (hv : 0 < v) :
    KMR_strain M Ms Rs dM e Dv v / KMR_strain M Ms Rs dM e (2 * Dv) v = 2 := by
  have hpos : 0 < KMR_strain M Ms Rs dM e (2 * Dv) v :=
    KMR_strain_pos hM hMs hRs hdM he (by linarith) hv
  have h2 : KMR_strain M Ms Rs dM e Dv v = 2 * KMR_strain M Ms Rs dM e (2 * Dv) v := by
    simp only [KMR_strain, Rt, Rg]
    ring
  rw [h2, mul_div_assoc, div_self hpos.ne', mul_one]

/-- Closed form of the strain: a constant in the non-mass parameters times
M to the power 2/3. -/
theorem KMR_strain_closed_form {M Ms Rs Dv : ℝ} (hM : 0 < M) (hMs : 0 < Ms)
    (hRs : Rs ≠ 0) (hDv : Dv ≠ 0) (dM e v : ℝ) :
    KMR_strain M Ms Rs dM e Dv v =
      (1e40 * (8 * e / (3 * Real.pi)) * dM * (2 * G) * Ms ^ ((1 : ℝ) / 3) /
        (c ^ 2 * Rs) * (v / c) ^ 2 * (G / c ^ 4) / Dv) * M ^ ((2 : ℝ) / 3) := by
  have h3 : (M ^ ((1 : ℝ) / 3)) ^ (3 : ℕ) = M := by
    rw [← Real.rpow_natCast (M ^ ((1 : ℝ) / 3)) 3, ← Real.rpow_mul hM.le]
    norm_num
  have h2 : M ^ ((2 : ℝ) / 3) = (M ^ ((1 : ℝ) / 3)) ^ (2 : ℕ) := by
    rw [← Real.rpow_natCast (M ^ ((1 : ℝ) / 3)) 2, ← Real.rpow_mul hM.le]
    norm_num
  have h1 : (M / Ms) ^ ((1 : ℝ) / 3) = M ^ ((1 : ℝ) / 3) / Ms ^ ((1 : ℝ) / 3) :=
    Real.div_rpow hM.le hMs.le _
  simp only [KMR_strain, Rt, Rg, h1, h2]
  set A := M ^ ((1 : ℝ) / 3) with hA
  have hA0 : A ≠ 0 := (Real.rpow_pos_of_pos hM _).ne'
  have hMs0 : Ms ^ ((1 : ℝ) / 3) ≠ 0 := (Real.rpow_pos_of_pos hMs _).ne'
  have hc0 : c ≠ 0 := by norm_num [c]
  have hG0 : G ≠ 0 := by norm_num [G]
  rw [← h3]
  field_simp
  ring

/-- Scaling the mass by k scales the strain by k to the power 2/3. -/
theorem KMR_strain_mass_scaling {M k Ms Rs Dv : ℝ} (hM : 0 < M) (hk : 0 < k)
    (hMs : 0 < Ms) (hRs : Rs ≠ 0) (hDv : Dv ≠ 0) (dM e v : ℝ) :
    KMR_strain (k * M) Ms Rs dM e Dv v =
      k ^ ((2 : ℝ) / 3) * KMR_strain M Ms Rs dM e Dv v := by
  rw [KMR_strain_closed_form (mul_pos hk hM) hMs hRs hDv,
    KMR_strain_closed_form hM hMs hRs hDv, Real.mul_rpow hk.le hM.le]
  ring

/-- The constant multiplying M^(2/3) is positive at the default parameters. -/
theorem default_coefficient_pos :
    0 < 1e40 * (8 * epsilon / (3 * Real.pi)) * deltaM * (2 * G) *
        M_star ^ ((1 : ℝ) / 3) / (c ^ 2 * R_star) * (v_ej / c) ^ 2 *
        (G / c ^ 4) / D := by
  simp only [epsilon, deltaM, M_star, R_star, D, v_ej, G, c, Msun, Rsun]
  positivity

/-- At the default parameters the strain is strictly increasing in the mass. -/
theorem KMR_strain_strictMono {x y : ℝ} (hx : 0 < x) (hxy : x < y) :
    KMR_strain x M_star R_star deltaM epsilon D v_ej <
      KMR_strain y M_star R_star deltaM epsilon D v_ej := by
  have hMs : (0 : ℝ) < M_star := by norm_num [M_star, Msun]
  have hRs : R_star ≠ 0 := by norm_num [R_star, Rsun]
  have hD : D ≠ 0 := by norm_num [D]
  rw [KMR_strain_closed_form hx hMs hRs hD, KMR_strain_closed_form (hx.trans hxy) hMs hRs hD]
  exact mul_lt_mul_of_pos_left
    (Real.rpow_lt_rpow hx.le hxy (by norm_num)) default_coefficient_pos

/-- At the default parameters the strain is monotone in the mass on positives. -/
theorem KMR_strain_mono {x y : ℝ} (hx : 0 < x) (hxy : x ≤ y) :
    KMR_strain x M_star R_star deltaM epsilon D v_ej ≤
      KMR_strain y M_star R_star deltaM epsilon D v_ej := by
  rcases eq_or_lt_of_le hxy with rfl | h
  · exact le_refl _
  · exact (KMR_strain_strictMono hx h).le

/-- The mass grid has exactly 200 entries. -/
theorem M_pbh_length : M_pbh.length = 200 := by
  simp [M_pbh, logspace]

/-- Entry k of the mass grid, in closed form. -/
theorem M_pbh_getElem (k : ℕ) (hk : k < 200) :
    M_pbh[k]? = some ((10 : ℝ) ^ ((20 : ℝ) + 5 * (k : ℝ) / 199)) := by
  simp only [M_pbh, logspace, List.getElem?_map, List.getElem?_range hk,
    Option.map_some]
  norm_num

/-- The first grid entry is 10 to the 20. -/
theorem M_pbh_head : M_pbh.head? = some ((10 : ℝ) ^ (20 : ℕ)) := by
  have h0 : M_pbh[0]? = some ((10 : ℝ) ^ ((20 : ℝ) + 5 * ((0 : ℕ) : ℝ) / 199)) :=
    M_pbh_getElem 0 (by norm_num)
  rw [List.head?_eq_getElem?, h0]
  congr 1
  rw [← Real.rpow_natCast (10 : ℝ) 20]
  norm_num

/-- The last grid entry is 10 to the 25. -/
theorem M_pbh_last : M_pbh.getLast? = some ((10 : ℝ) ^ (25 : ℕ)) := by
  have h199 : M_pbh[199]? = some ((10 : ℝ) ^ ((20 : ℝ) + 5 * ((199 : ℕ) : ℝ) / 199)) :=
    M_pbh_getElem 199 (by norm_num)
  have hlen : M_pbh.length - 1 = 199 := by rw [M_pbh_length]
  rw [List.getLast?_eq_getElem?, hlen, h199]
  congr 1
  rw [← Real.rpow_natCast (10 : ℝ) 25]
  norm_num

/-- The grid is strictly increasing. -/
theorem M_pbh_pairwise : M_pbh.Pairwise (· < ·) := by
  rw [M_pbh, logspace, List.pairwise_map]
  refine (List.pairwise_lt_range 200).imp ?_
  intro a b hab
  apply (Real.rpow_lt_rpow_left_iff (by norm_num : (1 : ℝ) < 10)).mpr
  have h : (a : ℝ) < (b : ℝ) := by exact_mod_cast hab
  have h199 : ((200 : ℕ) : ℝ) - 1 = 199 := by norm_num
  rw [h199]
  linarith [h]

/-- Every grid entry is strictly positive. -/
theorem M_pbh_pos : ∀ x ∈ M_pbh, 0 < x := by
  intro x hx
  rw [M_pbh, logspace, List.mem_map] at hx
  obtain ⟨k, _, rfl⟩ := hx
  exact Real.rpow_pos_of_pos (by norm_num) _

/-- Every grid entry lies between 10^20 and 10^25. -/
theorem M_pbh_bounds : ∀ x ∈ M_pbh, (10 : ℝ) ^ (20 : ℕ) ≤ x ∧ x ≤ (10 : ℝ) ^ (25 : ℕ) := by
  intro x hx
  rw [M_pbh, logspace, List.mem_map] at hx
  obtain ⟨k, hk, rfl⟩ := hx
  rw [List.mem_range] at hk
  have hk199 : (k : ℝ) ≤ 199 := by exact_mod_cast Nat.lt_succ_iff.mp hk
  have hk0 : (0 : ℝ) ≤ (k : ℝ) := Nat.cast_nonneg k
  have h199 : ((200 : ℕ) : ℝ) - 1 = 199 := by norm_num
  constructor
  · rw [← Real.rpow_natCast (10 : ℝ) 20]
    apply (Real.rpow_le_rpow_left_iff (by norm_num : (1 : ℝ) < 10)).mpr
    rw [h199]
    have : (0 : ℝ) ≤ (25 - 20) * (k : ℝ) / 199 := by positivity
    push_cast
    linarith
  · rw [← Real.rpow_natCast (10 : ℝ) 25]
    apply (Real.rpow_le_rpow_left_iff (by norm_num : (1 : ℝ) < 10)).mpr
    rw [h199]
    have : (25 - 20 : ℝ) * (k : ℝ) / 199 ≤ 5 := by
      rw [div_le_iff₀ (by norm_num : (0 : ℝ) < 199)]
      linarith
    push_cast
    linarith

/-- Head of the strain sequence is the strain at the first grid mass. -/
theorem strains_head :
    strains.head? =
      some (KMR_strain ((10 : ℝ) ^ (20 : ℕ)) M_star R_star deltaM epsilon D v_ej) := by
  rw [strains, List.head?_map, M_pbh_head]
  rfl

/-- Last entry of the strain sequence is the strain at the last grid mass. -/
theorem strains_last :
    strains.getLast? =
      some (KMR_strain ((10 : ℝ) ^ (25 : ℕ)) M_star R_star deltaM epsilon D v_ej) := by
  rw [strains, List.getLast?_map, M_pbh_last]
  rfl

/-- The strain sequence is strictly increasing. -/
theorem strains_pairwise : strains.Pairwise (· < ·) := by
  rw [strains, List.pairwise_map]
  refine List.Pairwise.imp_of_mem ?_ M_pbh_pairwise
  intro a b ha _ hab
  exact KMR_strain_strictMono (M_pbh_pos a ha) hab

/-- Every strain value is bounded by the strains at the first and last masses. -/
theorem strains_bounds : ∀ s ∈ strains,
    KMR_strain ((10 : ℝ) ^ (20 : ℕ)) M_star R_star deltaM epsilon D v_ej ≤ s ∧
    s ≤ KMR_strain ((10 : ℝ) ^ (25 : ℕ)) M_star R_star deltaM epsilon D v_ej := by
  intro s hs
  rw [strains, List.mem_map] at hs
  obtain ⟨m, hm, rfl⟩ := hs
  obtain ⟨h1, h2⟩ := M_pbh_bounds m hm
  have hpos : (0 : ℝ) < (10 : ℝ) ^ (20 : ℕ) := by positivity
  exact ⟨KMR_strain_mono hpos h1, KMR_strain_mono (M_pbh_pos m hm) h2⟩

/-- C1, as stated, is false: at the valid concrete bundle where every
parameter is 1, the ratio Strain(D) / Strain(2 D) is 2, not 4. -/
theorem C1_inverse_square_counterexample :
    KMR_strain 1 1 1 1 1 1 1 / KMR_strain 1 1 1 1 1 (2 * 1) 1 ≠ 4 := by
  have h : KMR_strain 1 1 1 1 1 1 1 / KMR_strain 1 1 1 1 1 (2 * 1) 1 = 2 :=
    KMR_strain_distance_halving one_pos one_pos one_pos one_pos one_pos one_pos one_pos
  rw [h]
  norm_num

/-- C1 (amended): the strain scales as the inverse first power of the observer
distance: for every positive parameter bundle, Strain(D) / Strain(2 D) = 2. -/
theorem C1_inverse_distance_scaling {M Ms Rs dM e Dv v : ℝ}
    (hM : 0 < M) (hMs : 0 < Ms) (hRs : 0 < Rs) (hdM : 0 < dM) (he : 0 < e)
    (hD : 0 < Dv) (hv : 0 < v) :
    KMR_strain M Ms Rs dM e Dv v / KMR_strain M Ms Rs dM e (2 * Dv) v = 2 :=
  KMR_strain_distance_halving hM hMs hRs hdM he hD hv

/-- Witness for the amended C1 at a concrete positive bundle. -/
theorem C1_inverse_distance_scaling_witness :
    KMR_strain 2 3 4 5 6 7 8 / KMR_strain 2 3 4 5 6 (2 * 7) 8 = 2 :=
  C1_inverse_distance_scaling (by norm_num) (by norm_num) (by norm_num)
    (by norm_num) (by norm_num) (by norm_num) (by norm_num)

/-- C3: the mass grid built with decade bounds (20, 25) and count 200 has
exactly 200 entries, its first entry is 10^20, its last is 10^25, and its
entries are strictly increasing (logspace is a pure function of its
arguments, so the construction is deterministic). -/
theorem C3_mass_grid :
    M_pbh.length = 200 ∧
    M_pbh.head? = some ((10 : ℝ) ^ (20 : ℕ)) ∧
    M_pbh.getLast? = some ((10 : ℝ) ^ (25 : ℕ)) ∧
    M_pbh.Pairwise (· < ·) :=
  ⟨M_pbh_length, M_pbh_head, M_pbh_last, M_pbh_pairwise⟩

/-- C4: the strain sequence has the same length as the mass grid and its
i-th entry is the strain model applied to the i-th grid mass with the fixed
model parameters. -/
theorem C4_index_alignment :
    strains.length = M_pbh.length ∧
    ∀ i : ℕ, strains[i]? =
      Option.map (fun m => KMR_strain m M_star R_star deltaM epsilon D v_ej)
        M_pbh[i]? := by
  refine ⟨by simp [strains], fun i => ?_⟩
  rw [strains, List.getElem?_map]

/-- C5: the strain is linear in the ejected mass and in the anisotropy
factor: doubling either doubles the strain, all else fixed. -/
theorem C5_linear_in_deltaM_and_epsilon :
    ∀ M Ms Rs dM e Dv v : ℝ,
      KMR_strain M Ms Rs (2 * dM) e Dv v = 2 * KMR_strain M Ms Rs dM e Dv v ∧
      KMR_strain M Ms Rs dM (2 * e) Dv v = 2 * KMR_strain M Ms Rs dM e Dv v := by
  intro M Ms Rs dM e Dv v
  constructor <;> · simp only [KMR_strain, Rt, Rg]; ring

/-- C6: with a positive mass and positive M_star, R_star, D, every divisor
appearing in KMR_strain (M_star, c^2, the mass itself, the radius ratio
Rt / Rg, c, c^4 and D) is nonzero, and the mass grid only contains strictly
positive values, so the precondition can never fire on grid input. -/
theorem C6_no_division_by_zero {M Ms Rs Dv : ℝ}
    (hM : 0 < M) (hMs : 0 < Ms) (hRs : 0 < Rs) (hD : 0 < Dv) :
    Ms ≠ 0 ∧ c ^ 2 ≠ 0 ∧ M ≠ 0 ∧ Rt M Ms Rs / Rg M ≠ 0 ∧ c ≠ 0 ∧ c ^ 4 ≠ 0 ∧
      Dv ≠ 0 ∧ ∀ x ∈ M_pbh, 0 < x := by
  have hc : c ≠ 0 := by norm_num [c]
  have hRt : 0 < Rt M Ms Rs := by
    have hdiv : (0 : ℝ) < M / Ms := div_pos hM hMs
    simp only [Rt]
    positivity
  have hRg : 0 < Rg M := by
    simp only [Rg, G, c]
    positivity
  exact ⟨hMs.ne', pow_ne_zero 2 hc, hM.ne', div_ne_zero hRt.ne' hRg.ne', hc,
    pow_ne_zero 4 hc, hD.ne', M_pbh_pos⟩

/-- Witness for C6 at the concrete bundle where every parameter is 1. -/
theorem C6_no_division_by_zero_witness :
    (1 : ℝ) ≠ 0 ∧ c ^ 2 ≠ 0 ∧ (1 : ℝ) ≠ 0 ∧ Rt 1 1 1 / Rg 1 ≠ 0 ∧ c ≠ 0 ∧
      c ^ 4 ≠ 0 ∧ (1 : ℝ) ≠ 0 ∧ ∀ x ∈ M_pbh, 0 < x :=
  C6_no_division_by_zero (by norm_num) (by norm_num) (by norm_num) (by norm_num)

/-- C7: the strain sequence over the default grid is monotonic (it is in
fact strictly increasing in grid order, which is the monotonic branch of
the claimed disjunction). -/
theorem C7_strain_sequence_monotonic : strains.Pairwise (· < ·) :=
  strains_pairwise

/-- C8: on the declared parameter domain the strain is non-negative. -/
theorem C8_strain_nonneg {M Ms Rs dM e Dv v : ℝ}
    (hM : 0 < M) (hMs : 0 < Ms) (hRs : 0 < Rs) (hdM : 0 < dM)
    (he : 0 < e) (_he1 : e ≤ 1) (hD : 0 < Dv) (hv : 0 < v) (_hvc : v < c) :
    0 ≤ KMR_strain M Ms Rs dM e Dv v :=
  (KMR_strain_pos hM hMs hRs hdM he hD hv).le

/-- Witness for C8 at a concrete in-domain bundle. -/
theorem C8_strain_nonneg_witness : 0 ≤ KMR_strain 1 1 1 1 1 1 1 :=
  C8_strain_nonneg (by norm_num) (by norm_num) (by norm_num) (by norm_num)
    (by norm_num) (by norm_num) (by norm_num) (by norm_num) (by norm_num [c])

/-- C9: the strain scales as the 2/3 power of the mass, so it is strictly
increasing in the mass at the default parameters, and over the default grid
the minimal strain is the strain at the first grid point and the maximal
strain is the strain at the last grid point. -/
theorem C9_mass_scaling_and_extremes :
    (∀ M k Ms Rs Dv dM e v : ℝ, 0 < M → 0 < k → 0 < Ms → Rs ≠ 0 → Dv ≠ 0 →
      KMR_strain (k * M) Ms Rs dM e Dv v =
        k ^ ((2 : ℝ) / 3) * KMR_strain M Ms Rs dM e Dv v) ∧
    (∀ x y : ℝ, 0 < x → x < y →
      KMR_strain x M_star R_star deltaM epsilon D v_ej <
        KMR_strain y M_star R_star deltaM epsilon D v_ej) ∧
    strains.head? =
      some (KMR_strain ((10 : ℝ) ^ (20 : ℕ)) M_star R_star deltaM epsilon D v_ej) ∧
    strains.getLast? =
      some (KMR_strain ((10 : ℝ) ^ (25 : ℕ)) M_star R_star deltaM epsilon D v_ej) ∧
    ∀ s ∈ strains,
      KMR_strain ((10 : ℝ) ^ (20 : ℕ)) M_star R_star deltaM epsilon D v_ej ≤ s ∧
      s ≤ KMR_strain ((10 : ℝ) ^ (25 : ℕ)) M_star R_star deltaM epsilon D v_ej := by
  refine ⟨?_, ?_, strains_head, strains_last, strains_bounds⟩
  · intro M k Ms Rs Dv dM e v hM hk hMs hRs hDv
    exact KMR_strain_mass_scaling hM hk hMs hRs hDv dM e v
  · intro x y hx hxy
    exact KMR_strain_strictMono hx hxy

/-- Witness for C9: the scaling law applied at mass 1 and factor 8. -/
theorem C9_mass_scaling_witness :
    KMR_strain (8 * 1) 1 1 1 1 1 1 =
      (8 : ℝ) ^ ((2 : ℝ) / 3) * KMR_strain 1 1 1 1 1 1 1 :=
  C9_mass_scaling_and_extremes.1 1 8 1 1 1 1 1 1 (by norm_num) (by norm_num)
    (by norm_num) (by norm_num) (by norm_num)

/-- C2: the strain is exactly the product stated in the spec, with the
empirical constant 1e40 preserved, and at the documented default parameters
with M = 1e22 g it equals the exact golden value
1149581432 / (1905601827023172490924913567625 pi 5^(1/3)), approximately
1.1229688403e-22. -/
theorem C2_formula_and_golden_value :
    (∀ M Ms Rs dM e Dv v : ℝ,
      KMR_strain M Ms Rs dM e Dv v =
        1e40 * (8 * e / (3 * Real.pi)) * (dM / M) *
          (Rs * (M / Ms) ^ ((1 : ℝ) / 3) / (2 * G * M / c ^ 2))⁻¹ *
          (v / c) ^ 2 * (G / c ^ 4) * (M / Dv)) ∧
    KMR_strain 1e22 2.0e33 7.0e10 2.0e30 0.02 3.1e26 2.9979e9 =
      1149581432 /
        (1905601827023172490924913567625 * Real.pi * (5 : ℝ) ^ ((1 : ℝ) / 3)) := by
  constructor
  · intro M Ms Rs dM e Dv v
    simp only [KMR_strain, Rt, Rg]
  · have hcube : (((1e-4 : ℝ)) ^ (3 : ℕ)) ^ ((1 : ℝ) / 3) = 1e-4 := by
      rw [← Real.rpow_natCast (1e-4 : ℝ) 3, ← Real.rpow_mul (by norm_num)]
      norm_num
    have h0 : ((1e22 : ℝ) / 2.0e33) = 5 * ((1e-4 : ℝ)) ^ (3 : ℕ) := by norm_num
    have h1 : ((1e22 : ℝ) / 2.0e33) ^ ((1 : ℝ) / 3) = (5 : ℝ) ^ ((1 : ℝ) / 3) * 1e-4 := by
      rw [h0, Real.mul_rpow (by norm_num) (by norm_num), hcube]
    have h5 : (0 : ℝ) < (5 : ℝ) ^ ((1 : ℝ) / 3) := Real.rpow_pos_of_pos (by norm_num) _
    simp only [KMR_strain, Rt, Rg, G, c, h1]
    field_simp
    ring

/-- C10: the strain model is a pure function, so two calls on identical
inputs return identical output. -/
theorem C10_deterministic : ∀ M Ms Rs dM e Dv v : ℝ,
    KMR_strain M Ms Rs dM e Dv v = KMR_strain M Ms Rs dM e Dv v :=
  fun _ _ _ _ _ _ _ => rfl

end KMR

end
